import Mathlib

/-!
# Bullion: a Redis-backed job queue (Go)

A shallow embedding of `bullion.go`, `job.go` and `scripts.go`.

Modelling conventions.

* Go `string` values are Lean `String`s.
* `int64` / `int` values are `Int`; the one place where the source adds two
  `int64`s (`eta := job.Timestamp + job.Delay`) wraps modulo `2^64`.
* A Go `map[string]string` is an association list in the order of the map
  literal; the order in which `range` visits it is supplied from outside.
* A Go result pair `(v, err)` is an `Except`: `Except.error err` stands for
  the zero value of `v` returned together with the non-nil `err`.
* Everything outside the program (the clock, the Redis connection, float
  formatting) is collected in an environment record that is passed in.
* A job handed to `DoAddJob` has its queue attached (`job.Bull` is not nil).
-/

set_option maxRecDepth 20000

namespace BullionSpec

/-! ## bullion.go -/

/-- The default key prefix. -/
def BullionPrefixDefault : String := "bull"

/-- Key name of the jobs channel. -/
def BullionKeyJobs : String := "jobs"

/-- Key of the jobs counter. -/
def BullionKeyJobsCount : String := "id"

/-- Key name of the wait list. -/
def BullionKeyWait : String := "wait"

/-- Key name of the active list. -/
def BullionKeyActive : String := "active"

/-- Key name of the delayed zset. -/
def BullionKeyDelayed : String := "delayed"

/-- Key name of the completed set. -/
def BullionKeyCompleted : String := "completed"

/-- Key name of the failed set. -/
def BullionKeyFailed : String := "failed"

/-- The queue handle.  The connection fields (`pool`, `bclient`, `eclient`)
belong to the Redis client library and carry no data the key functions read.
The source's field `prefix` is spelled `pfx`: the source's spelling is a reserved word. -/
structure Bullion where
  Name : String
  pfx : String
  deriving DecidableEq, Repr

/-- `GetKeyPrefix` returns the key prefix for redis. -/
def Bullion.GetKeyPrefix (bull : Bullion) : String :=
  bull.pfx ++ ":" ++ bull.Name ++ ":"

/-- `GetKey` returns the full key for a key segment. -/
def Bullion.GetKey (bull : Bullion) (segment : String) : String :=
  bull.GetKeyPrefix ++ segment

/-- The parameters for connecting to redis. -/
structure ConnectOptions where
  Address : String
  Auth : String
  DB : String
  Name : String
  deriving DecidableEq, Repr

/-- `New` creates a bullion instance.  The struct literal of the source sets
`prefix` and the three connection fields; `Name` is left at its zero value. -/
def New (_options : ConnectOptions) : Bullion :=
  { Name := "", pfx := BullionPrefixDefault }

/-! ## Library functions the source calls

`strconv.FormatInt`, `strconv.Itoa`, `strconv.Atoi` and `encoding/json.Marshal`
are Go standard library; they are modelled here as far as the source exercises
them.  `json.Unmarshal` and `strconv.ParseFloat` are passed in (see `Lib`). -/

/-- An `error` value, identified by its message. -/
abbrev Error := String

/-- Two's-complement wrap of an integer into the `int64` range. -/
def wrapInt64 (x : Int) : Int :=
  (x + 2 ^ 63) % 2 ^ 64 - 2 ^ 63

/-- `strconv.FormatInt(i, base)`: sign, then the digits of the magnitude. -/
def FormatInt (i : Int) (base : Nat) : String :=
  if i < 0 then "-" ++ String.mk (Nat.toDigits base i.natAbs)
  else String.mk (Nat.toDigits base i.natAbs)

/-- `strconv.Itoa(i)` is `FormatInt(int64(i), 10)`. -/
def Itoa (i : Int) : String :=
  FormatInt i 10

/-- The error `strconv.ErrSyntax`. -/
def ErrSyntax : Error := "invalid syntax"

/-- The error `strconv.ErrRange`. -/
def ErrRange : Error := "value out of range"

/-- Whether a character is one of the ASCII digits `0`..`9`. -/
def isDecimalDigit (c : Char) : Bool :=
  decide (48 ≤ c.toNat) && decide (c.toNat ≤ 57)

/-- The number a string of decimal digits denotes, most significant first. -/
def digitsValue (ds : List Char) : Nat :=
  ds.foldl (fun n c => n * 10 + (c.toNat - 48)) 0

/-- The digit loop of `strconv.ParseUint(s, 10, 64)`, from the value `n` read
so far: a character that is not a digit ends it with a syntax error and 0, a
value above `2^64 - 1` ends it with a range error and `2^64 - 1`, whichever comes
first. -/
def parseUintLoop : List Char → Nat → Nat × Option Error
  | [], n => (n, none)
  | c :: cs, n =>
    if isDecimalDigit c = false then (0, some ErrSyntax)
    else if n * 10 + (c.toNat - 48) > 2 ^ 64 - 1 then (2 ^ 64 - 1, some ErrRange)
    else parseUintLoop cs (n * 10 + (c.toNat - 48))

/-- The part of `strconv.Atoi` after the sign (`strconv.ParseInt`): no digit or
a syntax error of the digit loop is a syntax error with value 0; a magnitude
outside the 64-bit `int` is a range error with the nearest `int`. -/
def atoiDigits (neg : Bool) (ds : List Char) : Int × Option Error :=
  if ds = [] then (0, some ErrSyntax)
  else
    let r := parseUintLoop ds 0
    if r.2 = some ErrSyntax then (0, some ErrSyntax)
    else
      let un := r.1
      if neg then
        if un > 2 ^ 63 then (-(2 ^ 63), some ErrRange) else (-(un : Int), none)
      else
        if un ≥ 2 ^ 63 then (2 ^ 63 - 1, some ErrRange) else ((un : Int), none)

/-- `strconv.Atoi(s)` on a platform whose `int` has 64 bits: the value and the
error, the error identified by its kind. -/
def Atoi (s : String) : Int × Option Error :=
  match s.data with
  | [] => (0, some ErrSyntax)
  | c :: cs =>
    if c = '-' then atoiDigits true cs
    else if c = '+' then atoiDigits false cs
    else atoiDigits false (c :: cs)

/-- Indexing a `map[string]string`: the value stored under the key, or the
empty string when the key is absent. -/
def mapGet (data : List (String × String)) (key : String) : String :=
  (data.lookup key).getD ""

/-- A dynamically typed Go value (`interface{}`) as `json.Marshal` sees it:
the nil interface, booleans, integers, strings, non-nil slices, non-nil
string-keyed maps, and values of a kind the encoder rejects (channels,
functions, complex numbers), tagged with the name of their type.  Floating
point payloads are not represented. -/
inductive GoValue where
  | nil
  | bool (b : Bool)
  | int (i : Int)
  | str (s : String)
  | slice (xs : List GoValue)
  | map (kvs : List (String × GoValue))
  | unsupported (ty : String)

/-- A value of static type `[]interface{}`: the nil slice encodes as `null`,
like the nil interface. -/
def GoValue.ofSlice : Option (List GoValue) → GoValue
  | none => GoValue.nil
  | some xs => GoValue.slice xs

/-- The digit table `hex` of `encoding/json`. -/
def hexChar (n : Nat) : Char :=
  "0123456789abcdef".data.getD n '0'

/-- One character of a JSON string literal as `encoding/json` writes it with
HTML escaping on (the setting `json.Marshal` uses): the quote and the backslash
get a backslash, newline, carriage return, tab, backspace and form feed their
short escape (the last two as current Go releases write them), the other control
characters and `<`, `>`, `&` the six-character hexadecimal escape, as do U+2028
and U+2029. -/
def escapeChar (c : Char) : List Char :=
  if c = Char.ofNat 34 ∨ c = Char.ofNat 92 then [Char.ofNat 92, c]
  else if c = Char.ofNat 10 then [Char.ofNat 92, 'n']
  else if c = Char.ofNat 13 then [Char.ofNat 92, 'r']
  else if c = Char.ofNat 9 then [Char.ofNat 92, 't']
  else if c = Char.ofNat 8 then [Char.ofNat 92, 'b']
  else if c = Char.ofNat 12 then [Char.ofNat 92, 'f']
  else if c.toNat < 32 ∨ c = '<' ∨ c = '>' ∨ c = '&' then
    [Char.ofNat 92, 'u', '0', '0', hexChar (c.toNat / 16), hexChar (c.toNat % 16)]
  else if c.toNat = 8232 ∨ c.toNat = 8233 then
    [Char.ofNat 92, 'u', '2', '0', '2', hexChar (c.toNat % 16)]
  else [c]

/-- A Go string as a quoted JSON string literal. -/
def jsonString (s : String) : String :=
  "\"" ++ String.mk (s.data.flatMap escapeChar) ++ "\""

/-- Byte-wise `<` on strings, the order in which `encoding/json` sorts map keys. -/
def keyLt : List Char → List Char → Bool
  | _, [] => false
  | [], _ :: _ => true
  | a :: as, b :: bs =>
    if a.toNat < b.toNat then true
    else if a.toNat = b.toNat then keyLt as bs
    else false

/-- Insert one encoded map entry at its place among entries sorted by key. -/
def insertByKey (kv : String × Except Error String) :
    List (String × Except Error String) → List (String × Except Error String)
  | [] => [kv]
  | x :: xs => if keyLt kv.1.data x.1.data then kv :: x :: xs else x :: insertByKey kv xs

/-- Sort encoded map entries by key. -/
def sortByKey (kvs : List (String × Except Error String)) :
    List (String × Except Error String) :=
  kvs.foldr insertByKey []

/-- The encodings of a slice's elements in order, or the first error. -/
def collectElems : List (Except Error String) → Except Error (List String)
  | [] => Except.ok []
  | Except.error err :: _ => Except.error err
  | Except.ok s :: rest =>
    match collectElems rest with
    | Except.error err => Except.error err
    | Except.ok ss => Except.ok (s :: ss)

/-- The `"key":value` members of an object in order, or the first error. -/
def collectMembers : List (String × Except Error String) → Except Error (List String)
  | [] => Except.ok []
  | (_, Except.error err) :: _ => Except.error err
  | (k, Except.ok s) :: rest =>
    match collectMembers rest with
    | Except.error err => Except.error err
    | Except.ok ss => Except.ok ((jsonString k ++ ":" ++ s) :: ss)

mutual
/-- `json.Marshal(v)`: the compact JSON text of `v`, object members sorted by
key, or the encoder's error. -/
def jsonMarshal : GoValue → Except Error String
  | GoValue.nil => Except.ok "null"
  | GoValue.bool b => Except.ok (if b then "true" else "false")
  | GoValue.int i => Except.ok (FormatInt i 10)
  | GoValue.str s => Except.ok (jsonString s)
  | GoValue.slice xs =>
    match collectElems (jsonMarshalElems xs) with
    | Except.error err => Except.error err
    | Except.ok ss => Except.ok ("[" ++ ",".intercalate ss ++ "]")
  | GoValue.map kvs =>
    match collectMembers (sortByKey (jsonMarshalFields kvs)) with
    | Except.error err => Except.error err
    | Except.ok ss => Except.ok ("\x7b" ++ ",".intercalate ss ++ "\x7d")
  | GoValue.unsupported ty => Except.error ("json: unsupported type: " ++ ty)
/-- Encode each element of a slice. -/
def jsonMarshalElems : List GoValue → List (Except Error String)
  | [] => []
  | x :: xs => jsonMarshal x :: jsonMarshalElems xs
/-- Encode each value of a map. -/
def jsonMarshalFields : List (String × GoValue) → List (String × Except Error String)
  | [] => []
  | (k, v) :: kvs => (k, jsonMarshal v) :: jsonMarshalFields kvs
end

/-! ## job.go -/

/-- The value for no backoff. -/
def BullionJobBackoffNone : String := "none"

/-- The value for fixed backoff. -/
def BullionJobBackoffFixed : String := "fixed"

/-- The value for exponential backoff. -/
def BullionJobBackoffExponential : String := "exponential"

/-- The struct for job options; `ETA` (a `time.Time`) is kept as an integer
instant.  No function of the repository reads these fields. -/
structure JobOptions where
  LIFO : Bool
  ETA : Int
  Backoff : String
  BackoffDelay : Int
  Attempts : Int

/-- The main struct for the job.  `Stacktraces` is `none` for the nil slice;
`Bull` is the queue the job is attached to. -/
structure Job where
  ID : String
  Data : GoValue
  Opts : Option JobOptions
  Progress : Float
  Delay : Int
  Timestamp : Int
  Attempts : Int
  AttemptsMade : Int
  Backoff : String
  BackoffDelay : Int
  Stacktraces : Option (List GoValue)
  ReturnValue : GoValue
  Bull : Bullion

/-- The `opts` map `Serialize` builds (job.go lines 86-94), before it is
encoded: always `delay`, and `backoff` for the fixed and exponential kinds. -/
def Job.opts (job : Job) : List (String × GoValue) :=
  let delay := FormatInt job.Delay 10
  let opts := [("delay", GoValue.str delay)]
  if job.Backoff = BullionJobBackoffFixed ∨ job.Backoff = BullionJobBackoffExponential then
    opts ++ [("backoff", GoValue.map [
      ("type", GoValue.str job.Backoff),
      ("delay", GoValue.int job.BackoffDelay)])]
  else opts

/-- `Serialize` returns a key value mapping of the job.  `FormatFloat` stands
for `strconv.FormatFloat(·, 'f', -1, 64)`. -/
def Job.Serialize (FormatFloat : Float → String) (job : Job) :
    Except Error (List (String × String)) :=
  match jsonMarshal job.Data with
  | Except.error err => Except.error err
  | Except.ok data =>
    let timestamp := FormatInt job.Timestamp 10
    let delay := FormatInt job.Delay 10
    match jsonMarshal (GoValue.map job.opts) with
    | Except.error err => Except.error err
    | Except.ok _opts =>
      match jsonMarshal (GoValue.ofSlice job.Stacktraces) with
      | Except.error err => Except.error err
      | Except.ok stacktraces =>
        match jsonMarshal job.ReturnValue with
        | Except.error err => Except.error err
        | Except.ok returnValue =>
          Except.ok [
            ("data", data),
            ("opts", _opts),
            ("delay", delay),
            ("timestamp", timestamp),
            ("attempts", Itoa job.Attempts),
            ("attemptsMade", Itoa job.AttemptsMade),
            ("progress", FormatFloat job.Progress),
            ("stacktrace", stacktraces),
            ("returnvalue", returnValue)]

/-- The standard-library decoders `JobFromData` calls, passed in:
`json.Unmarshal` into an `interface{}` (the decoded value, of some type `V`, or
the error) and `strconv.ParseFloat(·, 64)` (value and error). -/
structure Lib (V : Type) where
  Unmarshal : String → Except Error V
  ParseFloat : String → Float × Option Error

/-- How the body of `JobFromData` ends: at one of its two `return nil, err`
statements, or at its closing brace with the locals `jobData`, `opts`, `delay`,
`timestamp`, `progress` computed.  The source has no other `return`: it builds
no `Job`. -/
inductive FromData (V : Type) where
  | failed (err : Error)
  | fellThrough (jobData opts : V) (delay timestamp : Int) (progress : Float)

/-- `AddJob` adds a job into the queue.  The body of the source is the single
assignment `job.Bull = bull`; the result is the job after it. -/
def Bullion.AddJob (bull : Bullion) (job : Job) : Job :=
  { job with Bull := bull }

/-- `JobFromData` constructs a job from the key value mapping data. -/
def Bullion.JobFromData {V : Type} (lib : Lib V) (_bull : Bullion) (_id : String)
    (data : List (String × String)) : FromData V :=
  match lib.Unmarshal (mapGet data "data") with
  | Except.error err => FromData.failed err
  | Except.ok jobData =>
    match lib.Unmarshal (mapGet data "opts") with
    | Except.error err => FromData.failed err
    | Except.ok opts =>
      let delay : Int :=
        if mapGet data "delay" = "undefined" then 0
        else (Atoi (mapGet data "delay")).1
      let timestamp := (Atoi (mapGet data "timestamp")).1
      let progress := (lib.ParseFloat (mapGet data "progress")).1
      FromData.fellThrough jobData opts delay timestamp progress

/-- `GetLockKey` returns the key of the lock on the job in redis. -/
def Job.GetLockKey (job : Job) : String :=
  let key := job.Bull.GetKeyPrefix ++ job.ID ++ ":lock"
  key

/-! ## scripts.go -/

/-- One element of the `[]interface{}` argument list handed to the script:
a string, or the `int64` the delayed branch appends. -/
inductive Arg where
  | str (s : String)
  | int (i : Int)
  deriving DecidableEq, Repr

/-- What `redis.NewScript(keyCount, src)` records. -/
structure Script where
  keyCount : Nat
  src : String
  deriving DecidableEq, Repr

/-- Everything `DoAddJob` reads from outside the program: the clock
(`time.Now().Unix()`), float formatting, the order in which `range` visits the
serialized map, and the store (`redis.String(script.Do(conn, argvs...))`). -/
structure Env where
  now : Int
  FormatFloat : Float → String
  rangeOrder : List (String × String) → List (String × String)
  run : Script → List Arg → Except Error String

/-- Which arm of the `if` in `DoAddJob` ran, with the local the arm declares:
`index` in the delayed arm, `push` in the wait-list arm. -/
inductive Branch where
  | delayed (index : Int)
  | wait (push : String)
  deriving DecidableEq, Repr

/-- The locals of `DoAddJob` at the point where the script is executed. -/
structure Assembled where
  keys : List String
  argvs : List Arg
  parts : List String
  hmData : String
  eta : Int
  branch : Branch
  _segments : List String
  segments : List String
  script : Script
  deriving DecidableEq, Repr

/-- The loop `for i := range parts` that builds `hmData`. -/
def hmDataOf (parts : List String) : String :=
  (List.range parts.length).foldl
    (fun hmData i =>
      let hmData := if hmData.length > 0 then hmData ++ ", " else hmData
      let hmData := hmData ++ "ARGV["
      let hmData := hmData ++ Itoa ((i : Int) + 2)
      hmData ++ "]")
    ""

/-- The counter-increment statement, first of the shared segments. -/
def incrStatement : String :=
  "local jobId = redis.call(\"INCR\", KEYS[4])"

/-- The statement `fmt.Sprintf` builds from the `HMSET` template. -/
def hmsetStatement (hmData : String) : String :=
  "redis.call(\"HMSET\", ARGV[1] .. jobId, " ++ hmData ++ ")"

/-- The statement `fmt.Sprintf` builds from the score template and one integer. -/
def scoreStatement (d : Int) : String :=
  "local score = tonumber(ARGV[" ++ FormatInt d 10 ++ "]) * 0x1000 + bit.band(jobId, 0xfff)"

/-- `DoAddJob` up to, and not including, the execution of the script
(scripts.go lines 49-119). -/
def DoAddJob.assemble (env : Env) (job : Job) (lifo : Bool) : Except Error Assembled :=
  let bull := job.Bull
  let keys := [
    bull.GetKey BullionKeyJobs,
    bull.GetKey BullionKeyWait,
    bull.GetKey BullionKeyDelayed,
    bull.GetKey BullionKeyJobsCount]
  let pfx := bull.GetKeyPrefix
  let argvs : List Arg := keys.foldl (fun argvs key => argvs ++ [Arg.str key]) []
  let argvs := argvs ++ [Arg.str pfx]
  match job.Serialize env.FormatFloat with
  | Except.error err => Except.error err
  | Except.ok data =>
    let n := data.length
    let parts : List String := List.replicate (n * 2) ""
    let pa := (env.rangeOrder data).foldl
      (fun (pa : List String × List Arg) (kv : String × String) =>
        (pa.1 ++ [kv.1] ++ [kv.2], pa.2 ++ [Arg.str kv.1] ++ [Arg.str kv.2]))
      (parts, argvs)
    let parts := pa.1
    let argvs := pa.2
    let hmData := hmDataOf parts
    let segments := [incrStatement, hmsetStatement hmData]
    let eta := wrapInt64 (job.Timestamp + job.Delay)
    let arm : List Arg × Branch × List String :=
      if job.Delay > 0 ∧ eta > env.now then
        (argvs ++ [Arg.int eta],
         Branch.delayed ((parts.length : Int) + 2),
         [scoreStatement eta,
          "redis.call(\"ZADD\", KEYS[3], score, jobId)",
          "redis.call(\"PUBLISH\", KEYS[3], (score / 0x1000))"])
      else
        (argvs,
         Branch.wait (if lifo then "RPUSH" else "LPUSH"),
         ["redis.call(\"LPUSH\", KEYS[2], jobId)",
          "redis.call(\"PUBLISH\", KEYS[1], jobId)"])
    let segments := segments.foldl (fun acc segment => acc ++ [segment]) segments
    let segments := segments ++ ["return jobId"]
    Except.ok {
      keys := keys
      argvs := arm.1
      parts := parts
      hmData := hmData
      eta := eta
      branch := arm.2.1
      _segments := arm.2.2
      segments := segments
      script := ⟨keys.length, "\n".intercalate segments⟩ }

/-- `DoAddJob` adds a job to the queue via lua script. -/
def DoAddJob (env : Env) (job : Job) (lifo : Bool) : Except Error String :=
  match DoAddJob.assemble env job lifo with
  | Except.error err => Except.error err
  | Except.ok a =>
    match env.run a.script a.argvs with
    | Except.error err => Except.error err
    | Except.ok result => Except.ok result

/-! ### The score statement in the Lua of Redis

The right-hand side of the score statement is evaluated by Redis, whose Lua
numbers are IEEE-754 doubles.  On the natural numbers a double can hold, the
operations the statement uses are modelled exactly. -/

/-- The number of binary digits of `n`, counted with `fuel` halvings. -/
def bitLenAux : Nat → Nat → Nat
  | 0, _ => 0
  | fuel + 1, n => if n = 0 then 0 else bitLenAux fuel (n / 2) + 1

/-- The number of binary digits of `n` (0 for 0). -/
def bitLen (n : Nat) : Nat :=
  bitLenAux n n

/-- The double nearest to a natural number, ties to the even significand: a
number below `2^53` is a double; a longer one keeps its 53 leading binary
digits, rounded. -/
def roundDouble (n : Nat) : Nat :=
  if n < 2 ^ 53 then n
  else
    let e := bitLen n - 53
    let q := n / 2 ^ e
    let r := n % 2 ^ e
    let half := 2 ^ (e - 1)
    if r > half ∨ (r = half ∧ q % 2 = 1) then (q + 1) * 2 ^ e else q * 2 ^ e

/-- The 32-bit pattern the `bit` library of Redis takes from a number: it adds
`2^52 + 2^51` as doubles and reads the low 32 bits of the sum's significand. -/
def barg (x : Nat) : Nat :=
  let y := roundDouble (x + 6755399441055744)
  let e := bitLen y - 1
  ((y - 2 ^ e) / 2 ^ (e - 52)) % 2 ^ 32

/-- The value of `tonumber(ARGV[k]) * 0x1000 + bit.band(jobId, 0xfff)`, the
right-hand side of the score statement (scripts.go lines 38 and 99), when the
argument `ARGV[k]` that the statement reads holds the decimal rendering of the
natural number `t` and `jobId` is the integer `INCR` returned: `tonumber` and the
integer reply give the nearest doubles, the product by `0x1000` is exact,
`bit.band` works on 32-bit patterns, and the sum is rounded to a double. -/
def scoreValue (t : Nat) (jobId : Nat) : Nat :=
  roundDouble (roundDouble t * 0x1000 + (barg (roundDouble jobId) &&& barg 0xfff))

/-! ## Sample inputs -/

/-- A queue named `mail` under the default prefix. -/
def mailQueue : Bullion :=
  ⟨"mail", BullionPrefixDefault⟩

/-- A job for immediate execution, created at Unix time 1700000000. -/
def sampleJob : Job where
  ID := ""
  Data := GoValue.map [("to", GoValue.str "a@b.c"), ("n", GoValue.int 2)]
  Opts := none
  Progress := 0
  Delay := 0
  Timestamp := 1700000000
  Attempts := 3
  AttemptsMade := 0
  Backoff := BullionJobBackoffFixed
  BackoffDelay := 100
  Stacktraces := none
  ReturnValue := GoValue.nil
  Bull := mailQueue

/-- The mapping `Serialize` returns for `sampleJob` when floats render as `0`. -/
def sampleFields : List (String × String) := [
  ("data", "\x7b\"n\":2,\"to\":\"a@b.c\"\x7d"),
  ("opts", "\x7b\"backoff\":\x7b\"delay\":100,\"type\":\"fixed\"\x7d,\"delay\":\"0\"\x7d"),
  ("delay", "0"),
  ("timestamp", "1700000000"),
  ("attempts", "3"),
  ("attemptsMade", "0"),
  ("progress", "0"),
  ("stacktrace", "null"),
  ("returnvalue", "null")]

/-- The same job, delayed by 60 seconds. -/
def delayedJob : Job :=
  { sampleJob with Delay := 60 }

/-- An environment whose clock reads `now`, that renders every float as `0`,
visits maps in literal order, and whose store answers every script with `1`. -/
def sampleEnv (now : Int) : Env where
  now := now
  FormatFloat := fun _ => "0"
  rangeOrder := fun m => m
  run := fun _ _ => Except.ok "1"

/-- An environment like `sampleEnv` whose store answers every script with the
text of that script. -/
def echoEnv (now : Int) : Env where
  now := now
  FormatFloat := fun _ => "0"
  rangeOrder := fun m => m
  run := fun script _ => Except.ok script.src

/-- The `HMSET` statement built for the sample job. -/
def sampleHmset : String :=
  "redis.call(\"HMSET\", ARGV[1] .. jobId, ARGV[2], ARGV[3], ARGV[4], ARGV[5], ARGV[6], ARGV[7], ARGV[8], ARGV[9], ARGV[10], ARGV[11], ARGV[12], ARGV[13], ARGV[14], ARGV[15], ARGV[16], ARGV[17], ARGV[18], ARGV[19], ARGV[20], ARGV[21], ARGV[22], ARGV[23], ARGV[24], ARGV[25], ARGV[26], ARGV[27], ARGV[28], ARGV[29], ARGV[30], ARGV[31], ARGV[32], ARGV[33], ARGV[34], ARGV[35], ARGV[36], ARGV[37])"

/-- A job with a negative delay, no attempts allowed and an unknown backoff kind. -/
def badJob : Job :=
  { sampleJob with Delay := -5, Attempts := 0, Backoff := "bogus" }

/-- A job whose payload is a channel, which `json.Marshal` rejects. -/
def chanJob : Job :=
  { sampleJob with Data := GoValue.unsupported "chan int" }

/-- A decoder library for the sample mappings: `Unmarshal` decodes the JSON
literals `null`, `true` and `false` and reports every other text used in the
samples (none of which starts a JSON value) as a syntax error; every float
parses as 0. -/
def sampleLib : Lib GoValue where
  Unmarshal := fun s =>
    if s = "null" then Except.ok GoValue.nil
    else if s = "true" then Except.ok (GoValue.bool true)
    else if s = "false" then Except.ok (GoValue.bool false)
    else Except.error "invalid character looking for beginning of value"
  ParseFloat := fun _ => (0, none)

/-- A mapping whose structured fields are valid JSON and whose `delay` and
`timestamp` are not numbers. -/
def garbledNumbers : List (String × String) := [
  ("data", "null"),
  ("opts", "null"),
  ("delay", "soon"),
  ("timestamp", "12:30"),
  ("progress", "0")]

/-- A mapping whose `data` field is not JSON. -/
def garbledData : List (String × String) := [
  ("data", "not json"),
  ("opts", "null"),
  ("delay", "0"),
  ("timestamp", "1700000000"),
  ("progress", "0")]

/-- A mapping with the given `delay` field and valid structured fields. -/
def delayFields (delay : String) : List (String × String) := [
  ("data", "null"),
  ("opts", "null"),
  ("delay", delay),
  ("timestamp", "1700000000"),
  ("progress", "0")]

/-- The text of the script assembled for the sample job. -/
def sampleScript : String :=
  "\n".intercalate [incrStatement, sampleHmset, incrStatement, sampleHmset, "return jobId"]

/-! ## Theorems -/

/-- C1: for the queue with prefix `p` and name `n`, `GetKey s` is
`p ++ ":" ++ n ++ ":" ++ s` and `GetKeyPrefix` is `p ++ ":" ++ n ++ ":"`. -/
theorem getKey_eq (p n s : String) :
    Bullion.GetKey ⟨n, p⟩ s = p ++ ":" ++ n ++ ":" ++ s ∧
    Bullion.GetKeyPrefix ⟨n, p⟩ = p ++ ":" ++ n ++ ":" := by
  exact ⟨rfl, rfl⟩

/-! ### Key namespace -/

/-- Two lists that split at the first occurrence of `c` split the same way. -/
theorem split_at_first (c : Char) :
    ∀ (l1 l2 r1 r2 : List Char), c ∉ l1 → c ∉ l2 →
      l1 ++ c :: r1 = l2 ++ c :: r2 → l1 = l2 ∧ r1 = r2 := by
  intro l1
  induction l1 with
  | nil =>
    intro l2 r1 r2 _ h2 h
    cases l2 with
    | nil => simpa using h
    | cons b t =>
      simp only [List.nil_append, List.cons_append, List.cons.injEq] at h
      exact absurd (by simp [h.1]) h2
  | cons a t ih =>
    intro l2 r1 r2 h1 h2 h
    cases l2 with
    | nil =>
      simp only [List.nil_append, List.cons_append, List.cons.injEq] at h
      exact absurd (by simp [h.1]) h1
    | cons b u =>
      simp only [List.cons_append, List.cons.injEq] at h
      have ht : c ∉ t := fun hc => h1 (List.mem_cons_of_mem _ hc)
      have hu : c ∉ u := fun hc => h2 (List.mem_cons_of_mem _ hc)
      obtain ⟨e1, e2⟩ := ih u r1 r2 ht hu h.2
      exact ⟨by rw [h.1, e1], e2⟩

/-- The characters of a key: prefix, colon, name, colon, segment. -/
theorem getKey_data (p n s : String) :
    (Bullion.GetKey ⟨n, p⟩ s).data = p.data ++ ':' :: (n.data ++ ':' :: s.data) := by
  simp [Bullion.GetKey, Bullion.GetKeyPrefix, String.data_append]

/-- C2 (as stated, refuted): the queues `("a:b", "c")` and `("a", "b:c")` give
the same key for the segment `s`, although their prefixes differ. -/
theorem getKey_not_injective :
    Bullion.GetKey ⟨"c", "a:b"⟩ "s" = Bullion.GetKey ⟨"b:c", "a"⟩ "s" ∧
    ¬ (("a:b" : String) = "a" ∧ ("c" : String) = "b:c" ∧ ("s" : String) = "s") := by
  decide

/-- C2 (amended): over queues whose prefix and name contain no colon, `GetKey`
is injective in the triple (prefix, name, segment). -/
theorem getKey_injective (p1 n1 s1 p2 n2 s2 : String)
    (hp1 : ':' ∉ p1.data) (hn1 : ':' ∉ n1.data)
    (hp2 : ':' ∉ p2.data) (hn2 : ':' ∉ n2.data)
    (h : Bullion.GetKey ⟨n1, p1⟩ s1 = Bullion.GetKey ⟨n2, p2⟩ s2) :
    p1 = p2 ∧ n1 = n2 ∧ s1 = s2 := by
  have hd := congrArg String.data h
  rw [getKey_data, getKey_data] at hd
  obtain ⟨e1, hrest⟩ := split_at_first ':' _ _ _ _ hp1 hp2 hd
  obtain ⟨e2, e3⟩ := split_at_first ':' _ _ _ _ hn1 hn2 hrest
  exact ⟨String.ext e1, String.ext e2, String.ext e3⟩

/-- Witness for `getKey_injective`: the default-prefix queue `mail`. -/
theorem getKey_injective_witness :
    ':' ∉ ("bull" : String).data ∧ ':' ∉ ("mail" : String).data ∧
    Bullion.GetKey ⟨"mail", "bull"⟩ "wait" = Bullion.GetKey ⟨"mail", "bull"⟩ "wait" ∧
    (("bull" : String) = "bull" ∧ ("mail" : String) = "mail" ∧ ("wait" : String) = "wait") :=
  ⟨by decide, by decide, rfl,
    getKey_injective "bull" "mail" "wait" "bull" "mail" "wait"
      (by decide) (by decide) (by decide) (by decide) rfl⟩

/-! ### Delayed-set score -/

/-- A number with `k + 1` binary digits is counted as such by `k + 1` or more halvings. -/
theorem bitLenAux_of_range :
    ∀ (k fuel n : Nat), 2 ^ k ≤ n → n < 2 ^ (k + 1) → k + 1 ≤ fuel → bitLenAux fuel n = k + 1 := by
  intro k
  induction k with
  | zero =>
    intro fuel n h1 h2 hf
    have hn : n = 1 := by omega
    subst hn
    cases fuel with
    | zero => omega
    | succ f =>
      cases f with
      | zero => simp [bitLenAux]
      | succ g => simp [bitLenAux]
  | succ k ih =>
    intro fuel n h1 h2 hf
    cases fuel with
    | zero => omega
    | succ f =>
      have hn : n ≠ 0 := by
        have := Nat.two_pow_pos (k + 1)
        omega
      have e1 : 2 ^ (k + 1) = 2 * 2 ^ k := by rw [Nat.pow_succ]; omega
      have e2 : 2 ^ (k + 1 + 1) = 2 * 2 ^ (k + 1) := by rw [Nat.pow_succ]; omega
      have h3 : 2 ^ k ≤ n / 2 := by omega
      have h4 : n / 2 < 2 ^ (k + 1) := by omega
      simp only [bitLenAux, hn, if_false]
      rw [ih f (n / 2) h3 h4 (by omega)]

/-- A number from `2^k` up to `2^(k+1)` has `k + 1` binary digits. -/
theorem bitLen_of_range (k n : Nat) (h1 : 2 ^ k ≤ n) (h2 : n < 2 ^ (k + 1)) :
    bitLen n = k + 1 := by
  have hk : k < 2 ^ k := Nat.lt_two_pow k
  exact bitLenAux_of_range k n n h1 h2 (by omega)

/-- Below `2^51` the 32-bit pattern of a number is the number modulo `2^32`. -/
theorem barg_small (x : Nat) (h : x < 2 ^ 51) : barg x = x % 2 ^ 32 := by
  have hy : x + 6755399441055744 < 2 ^ 53 := by omega
  have hr : roundDouble (x + 6755399441055744) = x + 6755399441055744 := by
    unfold roundDouble
    rw [if_pos hy]
  have hb : bitLen (x + 6755399441055744) = 53 :=
    bitLen_of_range 52 _ (by omega) (by omega)
  unfold barg
  simp only [hr, hb]
  norm_num
  omega

/-- For a timestamp below `2^41` and a job id below `2^51` no rounding occurs:
the score is the timestamp times 4096 plus the job id modulo 4096. -/
theorem scoreValue_exact (t jobId : Nat) (ht : t < 2 ^ 41) (hid : jobId < 2 ^ 51) :
    scoreValue t jobId = t * 4096 + jobId % 4096 := by
  have h1 : roundDouble t = t := by
    unfold roundDouble
    rw [if_pos (by omega)]
  have h2 : roundDouble jobId = jobId := by
    unfold roundDouble
    rw [if_pos (by omega)]
  have h3 : barg 0xfff = 2 ^ 12 - 1 := by decide
  have h4 : jobId % 2 ^ 32 &&& 2 ^ 12 - 1 = jobId % 4096 := by
    rw [Nat.and_pow_two_sub_one_eq_mod]
    omega
  have h5 : jobId % 4096 < 4096 := Nat.mod_lt _ (by decide)
  unfold scoreValue
  rw [h1, h2, barg_small jobId hid, h3, h4]
  unfold roundDouble
  rw [if_pos (by omega)]

/-- C7 (as stated, refuted): at the same timestamp, job 4095 scores above job
4096; and at the timestamp `2^41` jobs 3 and 4, and at any timestamp jobs `2^51`
and `2^51 + 1`, get equal scores. -/
theorem scoreValue_order_fails :
    (0 < 4095 ∧ 4095 < 4096 ∧
      ¬ (scoreValue 1700000060 4095 < scoreValue 1700000060 4096)) ∧
    (0 < 3 ∧ 3 < 4 ∧ ¬ (scoreValue (2 ^ 41) 3 < scoreValue (2 ^ 41) 4)) ∧
    (0 < 2 ^ 51 ∧ 2 ^ 51 < 2 ^ 51 + 1 ∧
      ¬ (scoreValue 1700000060 (2 ^ 51) < scoreValue 1700000060 (2 ^ 51 + 1))) := by
  decide

/-- C7 (amended): for a timestamp below `2^41` and job ids below `2^51` that lie
in the same block of 4096 consecutive ids, the score is strictly increasing in
the id. -/
theorem scoreValue_order (t id1 id2 : Nat) (ht : t < 2 ^ 41) (hid : id2 < 2 ^ 51)
    (hlt : id1 < id2) (hblock : id1 / 4096 = id2 / 4096) :
    scoreValue t id1 < scoreValue t id2 := by
  rw [scoreValue_exact t id1 ht (by omega), scoreValue_exact t id2 ht hid]
  have h1 := Nat.div_add_mod id1 4096
  have h2 := Nat.div_add_mod id2 4096
  omega

/-- Witness for `scoreValue_order`: jobs 7 and 8 at the timestamp 1700000060. -/
theorem scoreValue_order_witness :
    1700000060 < 2 ^ 41 ∧ 8 < 2 ^ 51 ∧ 7 < 8 ∧ 7 / 4096 = 8 / 4096 ∧
    scoreValue 1700000060 7 < scoreValue 1700000060 8 :=
  ⟨by decide, by decide, by decide, by decide,
    scoreValue_order 1700000060 7 8 (by decide) (by decide) (by decide) (by decide)⟩

/-! ### Serialize -/

/-- `FormatInt` in base 10 is the usual decimal rendering of an integer. -/
theorem formatInt_ten (i : Int) : FormatInt i 10 = toString i := by
  cases i with
  | ofNat n =>
    have h : ¬ (Int.ofNat n < 0) := by simp
    simp only [FormatInt, h, if_false]
    rfl
  | negSucc n =>
    have h : Int.negSucc n < 0 := Int.negSucc_lt_zero n
    simp only [FormatInt, h, if_true]
    rfl

/-- C9: when `Serialize` succeeds, the mapping has exactly the nine keys
`data`, `opts`, `delay`, `timestamp`, `attempts`, `attemptsMade`, `progress`,
`stacktrace`, `returnvalue`, and `delay`, `timestamp`, `attempts`,
`attemptsMade` hold the decimal renderings of the job's fields. -/
theorem serialize_fields (F : Float → String) (job : Job) (m : List (String × String))
    (h : job.Serialize F = Except.ok m) :
    m.map Prod.fst = ["data", "opts", "delay", "timestamp", "attempts", "attemptsMade",
      "progress", "stacktrace", "returnvalue"] ∧
    m.lookup "delay" = some (toString job.Delay) ∧
    m.lookup "timestamp" = some (toString job.Timestamp) ∧
    m.lookup "attempts" = some (toString job.Attempts) ∧
    m.lookup "attemptsMade" = some (toString job.AttemptsMade) := by
  unfold Job.Serialize at h
  split at h
  · cases h
  · split at h
    · cases h
    · split at h
      · cases h
      · split at h
        · cases h
        · injection h with h
          subst h
          simp only [Itoa, formatInt_ten]
          refine ⟨rfl, ?_, ?_, ?_, ?_⟩ <;> rfl

/-- Witness for `serialize_fields`: the sample job serializes. -/
theorem serialize_fields_witness :
    sampleJob.Serialize (fun _ => "0") = Except.ok sampleFields ∧
    (sampleFields.map Prod.fst = ["data", "opts", "delay", "timestamp", "attempts",
      "attemptsMade", "progress", "stacktrace", "returnvalue"] ∧
    sampleFields.lookup "delay" = some (toString sampleJob.Delay) ∧
    sampleFields.lookup "timestamp" = some (toString sampleJob.Timestamp) ∧
    sampleFields.lookup "attempts" = some (toString sampleJob.Attempts) ∧
    sampleFields.lookup "attemptsMade" = some (toString sampleJob.AttemptsMade)) :=
  ⟨rfl, serialize_fields (fun _ => "0") sampleJob sampleFields rfl⟩

/-- Every decimal digit character is written to a JSON string as itself. -/
theorem escapeChar_digitChar (d : Nat) (h : d < 10) :
    escapeChar (Nat.digitChar d) = [Nat.digitChar d] := by
  interval_cases d <;> decide

/-- The digit loop only ever produces characters that need no escaping. -/
theorem toDigitsCore_plain :
    ∀ (fuel n : Nat) (ds : List Char), (∀ c ∈ ds, escapeChar c = [c]) →
      ∀ c ∈ Nat.toDigitsCore 10 fuel n ds, escapeChar c = [c] := by
  intro fuel
  induction fuel with
  | zero => intro n ds hds c hc; exact hds c (by simpa [Nat.toDigitsCore] using hc)
  | succ fuel ih =>
    intro n ds hds c hc
    have hd : ∀ c ∈ Nat.digitChar (n % 10) :: ds, escapeChar c = [c] := by
      intro c hc
      rcases List.mem_cons.1 hc with rfl | hc
      · exact escapeChar_digitChar _ (Nat.mod_lt _ (by decide))
      · exact hds c hc
    simp only [Nat.toDigitsCore] at hc
    split at hc
    · exact hd c hc
    · exact ih _ _ hd c hc

/-- Escaping is the identity on a list of characters that need no escaping. -/
theorem flatMap_escapeChar_plain :
    ∀ (l : List Char), (∀ c ∈ l, escapeChar c = [c]) → l.flatMap escapeChar = l := by
  intro l
  induction l with
  | nil => intro _; rfl
  | cons a t ih =>
    intro h
    rw [List.flatMap_cons, h a (List.mem_cons_self _ _),
      ih (fun c hc => h c (List.mem_cons_of_mem _ hc))]
    rfl

/-- A decimal rendering is quoted without any escape. -/
theorem jsonString_formatInt (i : Int) :
    jsonString (FormatInt i 10) = "\"" ++ FormatInt i 10 ++ "\"" := by
  have hplain : ∀ c ∈ (FormatInt i 10).data, escapeChar c = [c] := by
    intro c hc
    unfold FormatInt at hc
    split at hc
    · rcases List.mem_cons.1 (by simpa using hc) with rfl | hc
      · decide
      · exact toDigitsCore_plain _ _ [] (by simp) c hc
    · exact toDigitsCore_plain _ _ [] (by simp) c hc
  unfold jsonString
  rw [flatMap_escapeChar_plain _ hplain]

/-- The key `delay` as a JSON string. -/
theorem jsonString_delay : jsonString "delay" = "\"delay\"" := by decide

/-- The key `backoff` as a JSON string. -/
theorem jsonString_backoff : jsonString "backoff" = "\"backoff\"" := by decide

/-- The key `type` as a JSON string. -/
theorem jsonString_type : jsonString "type" = "\"type\"" := by decide

/-- The backoff kind `fixed` as a JSON string. -/
theorem jsonString_fixed : jsonString BullionJobBackoffFixed = "\"" ++ BullionJobBackoffFixed ++ "\"" := by decide

/-- The backoff kind `exponential` as a JSON string. -/
theorem jsonString_exponential : jsonString BullionJobBackoffExponential = "\"" ++ BullionJobBackoffExponential ++ "\"" := by decide

/-- The encoded `opts` of a job without a fixed or exponential backoff. -/
theorem opts_plain (job : Job)
    (hb : ¬ (job.Backoff = BullionJobBackoffFixed ∨ job.Backoff = BullionJobBackoffExponential)) :
    jsonMarshal (GoValue.map job.opts) =
      Except.ok ("\x7b\"delay\":\"" ++ toString job.Delay ++ "\"\x7d") := by
  simp only [Job.opts, hb, if_false, jsonMarshal, jsonMarshalFields, sortByKey, List.foldr,
    insertByKey, collectMembers, jsonString_formatInt, jsonString_delay]
  rw [formatInt_ten]
  apply congrArg
  apply String.ext
  simp [String.intercalate, String.intercalate.go, String.data_append]

/-- The encoded `opts` of a job with a fixed or exponential backoff. -/
theorem opts_backoff (job : Job)
    (hb : job.Backoff = BullionJobBackoffFixed ∨ job.Backoff = BullionJobBackoffExponential) :
    jsonMarshal (GoValue.map job.opts) =
      Except.ok ("\x7b\"backoff\":\x7b\"delay\":" ++ toString job.BackoffDelay ++
        ",\"type\":\"" ++ job.Backoff ++ "\"\x7d,\"delay\":\"" ++ toString job.Delay ++ "\"\x7d") := by
  have hk : keyLt "backoff".data "delay".data = true := by decide
  have hk2 : keyLt "delay".data "type".data = true := by decide
  have hk3 : keyLt "type".data "delay".data = false := by decide
  have hq : jsonString job.Backoff = "\"" ++ job.Backoff ++ "\"" := by
    rcases hb with h | h <;> rw [h]
    · exact jsonString_fixed
    · exact jsonString_exponential
  simp only [Job.opts, hb, if_true, jsonMarshal, jsonMarshalFields, sortByKey, List.foldr,
    insertByKey, collectMembers, jsonString_formatInt, List.cons_append, List.nil_append, hk, hk2, hk3,
    jsonString_delay, jsonString_backoff, jsonString_type, hq]
  rw [formatInt_ten, formatInt_ten]
  apply congrArg
  apply String.ext
  simp [String.intercalate, String.intercalate.go, String.data_append]

/-- C10: when `Serialize` succeeds, the `opts` field is the JSON encoding of a
map that always has the key `delay`, and has the key `backoff` exactly when the
job's backoff is `fixed` or `exponential`; `backoff` is then the nested object
with `type` the backoff kind and `delay` the backoff delay. -/
theorem serialize_opts (F : Float → String) (job : Job) (m : List (String × String))
    (h : job.Serialize F = Except.ok m) :
    ∃ blob, m.lookup "opts" = some blob ∧
      jsonMarshal (GoValue.map job.opts) = Except.ok blob ∧
      (job.opts.map Prod.fst =
        if job.Backoff = "fixed" ∨ job.Backoff = "exponential" then ["delay", "backoff"]
        else ["delay"]) ∧
      (∀ v, ("backoff", v) ∈ job.opts →
        v = GoValue.map [
          ("type", GoValue.str job.Backoff), ("delay", GoValue.int job.BackoffDelay)]) ∧
      (blob =
        if job.Backoff = "fixed" ∨ job.Backoff = "exponential" then
          "\x7b\"backoff\":\x7b\"delay\":" ++ toString job.BackoffDelay ++
            ",\"type\":\"" ++ job.Backoff ++ "\"\x7d,\"delay\":\"" ++ toString job.Delay ++ "\"\x7d"
        else "\x7b\"delay\":\"" ++ toString job.Delay ++ "\"\x7d") := by
  unfold Job.Serialize at h
  split at h
  · cases h
  · split at h
    · cases h
    · rename_i blob hblob
      split at h
      · cases h
      · split at h
        · cases h
        · injection h with h
          subst h
          refine ⟨blob, rfl, hblob, ?_, ?_, ?_⟩
          · by_cases hb : job.Backoff = "fixed" ∨ job.Backoff = "exponential"
            · have hb2 : job.Backoff = BullionJobBackoffFixed ∨
                  job.Backoff = BullionJobBackoffExponential := hb
              simp [Job.opts, hb, hb2]
            · have hb2 : ¬ (job.Backoff = BullionJobBackoffFixed ∨
                  job.Backoff = BullionJobBackoffExponential) := hb
              simp [Job.opts, hb, hb2]
          · intro v hv
            unfold Job.opts at hv
            split at hv
            · simpa using hv
            · simp at hv
          · by_cases hb : job.Backoff = "fixed" ∨ job.Backoff = "exponential"
            · rw [opts_backoff job hb] at hblob
              injection hblob with hblob
              rw [if_pos hb, ← hblob]
            · rw [opts_plain job hb] at hblob
              injection hblob with hblob
              rw [if_neg hb, ← hblob]

/-- Witness for `serialize_opts`: the sample job, whose backoff is `fixed`. -/
theorem serialize_opts_witness :
    sampleJob.Serialize (fun _ => "0") = Except.ok sampleFields ∧
    ∃ blob, sampleFields.lookup "opts" = some blob ∧
      jsonMarshal (GoValue.map sampleJob.opts) = Except.ok blob ∧
      (sampleJob.opts.map Prod.fst =
        if sampleJob.Backoff = "fixed" ∨ sampleJob.Backoff = "exponential" then
          ["delay", "backoff"]
        else ["delay"]) ∧
      (∀ v, ("backoff", v) ∈ sampleJob.opts →
        v = GoValue.map [
          ("type", GoValue.str sampleJob.Backoff),
          ("delay", GoValue.int sampleJob.BackoffDelay)]) ∧
      (blob =
        if sampleJob.Backoff = "fixed" ∨ sampleJob.Backoff = "exponential" then
          "\x7b\"backoff\":\x7b\"delay\":" ++ toString sampleJob.BackoffDelay ++
            ",\"type\":\"" ++ sampleJob.Backoff ++ "\"\x7d,\"delay\":\"" ++
            toString sampleJob.Delay ++ "\"\x7d"
        else "\x7b\"delay\":\"" ++ toString sampleJob.Delay ++ "\"\x7d") :=
  ⟨rfl, serialize_opts (fun _ => "0") sampleJob sampleFields rfl⟩

/-! ### DoAddJob -/

/-- No `HMSET` statement is the counter-increment statement. -/
theorem hmsetStatement_ne_incr (hmData : String) : hmsetStatement hmData ≠ incrStatement := by
  intro h
  have hd := congrArg String.data h
  simp [hmsetStatement, incrStatement, String.data_append] at hd

/-- The loop over the serialized map appends each key and value, in the order
visited, to `parts` and to `argvs`. -/
theorem foldl_parts_argvs (l : List (String × String)) :
    ∀ (parts : List String) (argvs : List Arg),
      l.foldl
        (fun (pa : List String × List Arg) (kv : String × String) =>
          (pa.1 ++ [kv.1] ++ [kv.2], pa.2 ++ [Arg.str kv.1] ++ [Arg.str kv.2]))
        (parts, argvs) =
      (parts ++ l.flatMap (fun kv => [kv.1, kv.2]),
       argvs ++ l.flatMap (fun kv => [Arg.str kv.1, Arg.str kv.2])) := by
  induction l with
  | nil => intro parts argvs; simp
  | cons kv t ih =>
    intro parts argvs
    rw [List.foldl_cons, ih]
    simp [List.flatMap_cons, List.append_assoc]

/-- C3 (what the code does): whenever `Serialize` succeeds, the assembled
script consists of the counter-increment statement and the `HMSET` statement,
both a second time, and `return jobId`; the increment statement occurs twice,
not once.  `KEYS[4]` is `GetKey "id"` and the last statement is `return jobId`. -/
theorem assemble_segments (env : Env) (job : Job) (lifo : Bool) (m : List (String × String))
    (h : job.Serialize env.FormatFloat = Except.ok m) :
    ∃ a, DoAddJob.assemble env job lifo = Except.ok a ∧
      a.segments = [incrStatement, hmsetStatement a.hmData,
        incrStatement, hmsetStatement a.hmData, "return jobId"] ∧
      a.segments.count incrStatement = 2 ∧
      a.segments.getLast? = some "return jobId" ∧
      a.script = ⟨4, "\n".intercalate a.segments⟩ ∧
      a.argvs.get? 3 = some (Arg.str (job.Bull.GetKey "id")) := by
  have hne := hmsetStatement_ne_incr
  have hret : ("return jobId" : String) ≠ incrStatement := by decide
  unfold DoAddJob.assemble
  simp only [h]
  refine ⟨_, rfl, rfl, ?_, rfl, rfl, ?_⟩
  · simp [List.count_cons, hne, hret]
  · simp only [foldl_parts_argvs]
    split <;> simp [BullionKeyJobsCount]

/-- Witness for `assemble_segments`: the sample job, pushed FIFO. -/
theorem assemble_segments_witness :
    sampleJob.Serialize (sampleEnv 1700000000).FormatFloat = Except.ok sampleFields ∧
    ∃ a, DoAddJob.assemble (sampleEnv 1700000000) sampleJob false = Except.ok a ∧
      a.segments = [incrStatement, hmsetStatement a.hmData,
        incrStatement, hmsetStatement a.hmData, "return jobId"] ∧
      a.segments.count incrStatement = 2 ∧
      a.segments.getLast? = some "return jobId" ∧
      a.script = ⟨4, "\n".intercalate a.segments⟩ ∧
      a.argvs.get? 3 = some (Arg.str (sampleJob.Bull.GetKey "id")) :=
  ⟨rfl, assemble_segments (sampleEnv 1700000000) sampleJob false sampleFields rfl⟩

/-- C4 (what the code does): for the sample job, which is not delayed, the
wait-list arm builds the push and publish statements, and the script that is
executed holds neither of them. -/
theorem assemble_drops_wait_statements :
    ∃ a, DoAddJob.assemble (sampleEnv 1700000000) sampleJob false = Except.ok a ∧
      a.branch = Branch.wait "LPUSH" ∧
      a._segments = ["redis.call(\"LPUSH\", KEYS[2], jobId)",
        "redis.call(\"PUBLISH\", KEYS[1], jobId)"] ∧
      a.segments = [incrStatement, sampleHmset, incrStatement, sampleHmset, "return jobId"] ∧
      (∀ s ∈ a._segments, s ∉ a.segments) ∧
      a.script.src = "\n".intercalate a.segments :=
  ⟨_, rfl, rfl, rfl, rfl, by decide, rfl⟩

/-- C5 (what the code does): with `lifo` set, the wait-list arm sets `push` to
`RPUSH` and still builds the statement with `LPUSH`. -/
theorem assemble_lifo_pushes_left :
    ∃ a, DoAddJob.assemble (sampleEnv 1700000000) sampleJob true = Except.ok a ∧
      a.branch = Branch.wait "RPUSH" ∧
      a._segments = ["redis.call(\"LPUSH\", KEYS[2], jobId)",
        "redis.call(\"PUBLISH\", KEYS[1], jobId)"] :=
  ⟨_, rfl, rfl, rfl⟩

/-- C6 (what the code does): for the sample job delayed by 60 seconds, the
argument holding eta = 1700000060 is `ARGV[20]`, and the score statement reads
`ARGV[1700000060]`: the template is filled with eta, not with its position. -/
theorem assemble_score_reads_eta :
    ∃ a, DoAddJob.assemble (sampleEnv 1700000000) delayedJob false = Except.ok a ∧
      a.eta = 1700000060 ∧
      a.branch = Branch.delayed 38 ∧
      (a.argvs.drop a.script.keyCount).length = 20 ∧
      (a.argvs.drop a.script.keyCount).get? (20 - 1) = some (Arg.int 1700000060) ∧
      a._segments = [
        "local score = tonumber(ARGV[1700000060]) * 0x1000 + bit.band(jobId, 0xfff)",
        "redis.call(\"ZADD\", KEYS[3], score, jobId)",
        "redis.call(\"PUBLISH\", KEYS[3], (score / 0x1000))"] :=
  ⟨_, rfl, rfl, rfl, rfl, rfl, rfl⟩

/-- C8 (what the code does): the sample job serializes to 9 fields, the script
receives 19 `ARGV` arguments (the key prefix and 18 names and values), and the
`HMSET` statement references `ARGV[2]` through `ARGV[37]`. -/
theorem assemble_hmset_overruns :
    ∃ a, DoAddJob.assemble (sampleEnv 1700000000) sampleJob false = Except.ok a ∧
      sampleFields.length = 9 ∧
      (a.argvs.drop a.script.keyCount).length = 19 ∧
      (a.argvs.drop a.script.keyCount).head? = some (Arg.str sampleJob.Bull.GetKeyPrefix) ∧
      a.parts.length = 36 ∧
      a.parts.take 18 = List.replicate 18 "" ∧
      a.hmData = "ARGV[2], ARGV[3], ARGV[4], ARGV[5], ARGV[6], ARGV[7], ARGV[8], ARGV[9], ARGV[10], ARGV[11], ARGV[12], ARGV[13], ARGV[14], ARGV[15], ARGV[16], ARGV[17], ARGV[18], ARGV[19], ARGV[20], ARGV[21], ARGV[22], ARGV[23], ARGV[24], ARGV[25], ARGV[26], ARGV[27], ARGV[28], ARGV[29], ARGV[30], ARGV[31], ARGV[32], ARGV[33], ARGV[34], ARGV[35], ARGV[36], ARGV[37]" ∧
      a.segments.get? 1 = some (hmsetStatement a.hmData) :=
  ⟨_, rfl, rfl, rfl, rfl, rfl, rfl, rfl, rfl⟩

/-- The `opts` map of a job always encodes. -/
theorem opts_encodes (job : Job) : ∃ blob, jsonMarshal (GoValue.map job.opts) = Except.ok blob := by
  by_cases hb : job.Backoff = BullionJobBackoffFixed ∨ job.Backoff = BullionJobBackoffExponential
  · exact ⟨_, opts_backoff job hb⟩
  · exact ⟨_, opts_plain job hb⟩

/-- C14: when encoding `Data` fails, or `Data` encodes and encoding
`Stacktraces` fails, or both encode and encoding `ReturnValue` fails, with error
`e`, then `Serialize` returns `e` and no mapping, `DoAddJob` assembles no script
and returns `e` and no id, whatever the store would answer. -/
theorem serialize_error_propagates (env : Env) (job : Job) (lifo : Bool) (e : Error)
    (h : jsonMarshal job.Data = Except.error e ∨
      (∃ d, jsonMarshal job.Data = Except.ok d ∧
        jsonMarshal (GoValue.ofSlice job.Stacktraces) = Except.error e) ∨
      (∃ d t, jsonMarshal job.Data = Except.ok d ∧
        jsonMarshal (GoValue.ofSlice job.Stacktraces) = Except.ok t ∧
        jsonMarshal job.ReturnValue = Except.error e)) :
    job.Serialize env.FormatFloat = Except.error e ∧
    DoAddJob.assemble env job lifo = Except.error e ∧
    DoAddJob env job lifo = Except.error e ∧
    ∀ (run : Script → List Arg → Except Error String),
      DoAddJob { env with run := run } job lifo = Except.error e := by
  obtain ⟨blob, hblob⟩ := opts_encodes job
  have hs : ∀ F, job.Serialize F = Except.error e := by
    intro F
    unfold Job.Serialize
    rcases h with h | ⟨d, hd, ht⟩ | ⟨d, t, hd, ht, hr⟩
    · simp only [h]
    · simp only [hd, hblob, ht]
    · simp only [hd, hblob, ht, hr]
  have ha : ∀ env' : Env, DoAddJob.assemble env' job lifo = Except.error e := by
    intro env'
    unfold DoAddJob.assemble
    simp only [hs]
  refine ⟨hs _, ha _, ?_, ?_⟩
  · unfold DoAddJob
    simp only [ha]
  · intro run
    unfold DoAddJob
    simp only [ha]

/-- Witness for `serialize_error_propagates`: a job whose payload is a channel. -/
theorem serialize_error_propagates_witness :
    (jsonMarshal chanJob.Data = Except.error "json: unsupported type: chan int" ∨
      (∃ d, jsonMarshal chanJob.Data = Except.ok d ∧
        jsonMarshal (GoValue.ofSlice chanJob.Stacktraces) =
          Except.error "json: unsupported type: chan int") ∨
      (∃ d t, jsonMarshal chanJob.Data = Except.ok d ∧
        jsonMarshal (GoValue.ofSlice chanJob.Stacktraces) = Except.ok t ∧
        jsonMarshal chanJob.ReturnValue = Except.error "json: unsupported type: chan int")) ∧
    (chanJob.Serialize (sampleEnv 1700000000).FormatFloat =
        Except.error "json: unsupported type: chan int" ∧
      DoAddJob.assemble (sampleEnv 1700000000) chanJob false =
        Except.error "json: unsupported type: chan int" ∧
      DoAddJob (sampleEnv 1700000000) chanJob false =
        Except.error "json: unsupported type: chan int" ∧
      ∀ (run : Script → List Arg → Except Error String),
        DoAddJob { sampleEnv 1700000000 with run := run } chanJob false =
          Except.error "json: unsupported type: chan int") :=
  ⟨Or.inl rfl,
    serialize_error_propagates (sampleEnv 1700000000) chanJob false
      "json: unsupported type: chan int" (Or.inl rfl)⟩

/-- C13 (as stated, refuted): a job with delay -5, 0 attempts allowed and
backoff kind `bogus`, attached by `AddJob`, is not rejected: `DoAddJob`
assembles a script, runs it and returns the store's answer. -/
theorem doAddJob_accepts_invalid_options :
    badJob.Delay < 0 ∧ badJob.Attempts ≤ 0 ∧
    badJob.Backoff ≠ "none" ∧ badJob.Backoff ≠ "fixed" ∧ badJob.Backoff ≠ "exponential" ∧
    (∃ a, DoAddJob.assemble (sampleEnv 1700000000) (mailQueue.AddJob badJob) false =
      Except.ok a) ∧
    DoAddJob (sampleEnv 1700000000) (mailQueue.AddJob badJob) false = Except.ok "1" :=
  ⟨by decide, by decide, by decide, by decide, by decide, ⟨_, rfl⟩, rfl⟩

/-- C13 (amended): `DoAddJob` checks none of `Delay`, `Attempts`, `Backoff`:
for every job on which `Serialize` succeeds it assembles a script, runs it
against the store and returns what the store returns. -/
theorem doAddJob_runs_script (env : Env) (job : Job) (lifo : Bool)
    (m : List (String × String)) (h : job.Serialize env.FormatFloat = Except.ok m) :
    ∃ a, DoAddJob.assemble env job lifo = Except.ok a ∧
      DoAddJob env job lifo = env.run a.script a.argvs := by
  have ha : ∃ a, DoAddJob.assemble env job lifo = Except.ok a := by
    unfold DoAddJob.assemble
    simp only [h]
    exact ⟨_, rfl⟩
  obtain ⟨a, ha⟩ := ha
  refine ⟨a, ha, ?_⟩
  unfold DoAddJob
  simp only [ha]
  cases env.run a.script a.argvs <;> rfl

/-- The mapping `Serialize` returns for `badJob` when floats render as `0`. -/
theorem badJob_serializes :
    badJob.Serialize (sampleEnv 1700000000).FormatFloat = Except.ok [
      ("data", "\x7b\"n\":2,\"to\":\"a@b.c\"\x7d"),
      ("opts", "\x7b\"delay\":\"-5\"\x7d"),
      ("delay", "-5"),
      ("timestamp", "1700000000"),
      ("attempts", "0"),
      ("attemptsMade", "0"),
      ("progress", "0"),
      ("stacktrace", "null"),
      ("returnvalue", "null")] :=
  rfl

/-- Witness for `doAddJob_runs_script`: the job with invalid options. -/
theorem doAddJob_runs_script_witness :
    (∃ m, badJob.Serialize (sampleEnv 1700000000).FormatFloat = Except.ok m) ∧
    ∃ a, DoAddJob.assemble (sampleEnv 1700000000) badJob true = Except.ok a ∧
      DoAddJob (sampleEnv 1700000000) badJob true =
        (sampleEnv 1700000000).run a.script a.argvs :=
  ⟨⟨_, badJob_serializes⟩,
    doAddJob_runs_script (sampleEnv 1700000000) badJob true _ badJob_serializes⟩

/-- C15: `GetLockKey` is the queue's `GetKey` of `ID ++ ":lock"`, that is
prefix, colon, name, colon, id, `:lock`. -/
theorem getLockKey_eq (job : Job) :
    job.GetLockKey = job.Bull.GetKey (job.ID ++ ":lock") ∧
    job.GetLockKey = job.Bull.pfx ++ ":" ++ job.Bull.Name ++ ":" ++ job.ID ++ ":lock" := by
  constructor
  · simp [Job.GetLockKey, Bullion.GetKey, String.append_assoc]
  · rfl

/-- C16 (what the code does): `New` sets the prefix `bull` and leaves the queue
name empty, whatever `Name` the options carry, so `GetKey s` is `bull::` then
`s`; for the options naming the queue `mail`, the key of `wait` is `bull::wait`,
not `bull:mail:wait`. -/
theorem new_ignores_name (o : ConnectOptions) (s : String) :
    (New o).pfx = "bull" ∧ (New o).Name = "" ∧ (New o).GetKey s = "bull::" ++ s ∧
    (New ⟨"localhost:6379", "", "", "mail"⟩).GetKey "wait" = "bull::wait" ∧
    (New ⟨"localhost:6379", "", "", "mail"⟩).GetKey "wait" ≠ "bull:" ++ "mail" ++ ":" ++ "wait" := by
  refine ⟨rfl, rfl, ?_, by decide, by decide⟩
  simp [New, Bullion.GetKey, Bullion.GetKeyPrefix, BullionPrefixDefault]

/-- An integer in the `int64` range is left unchanged by the wrap. -/
theorem wrapInt64_of_inRange (x : Int) (hlo : -(2 ^ 63) ≤ x) (hhi : x < 2 ^ 63) :
    wrapInt64 x = x := by
  unfold wrapInt64
  omega

/-- The arm of the `if` in `DoAddJob`: when `Serialize` succeeds, the delayed
arm runs exactly when `Delay > 0` and eta, the `int64` sum `Timestamp + Delay`,
is strictly greater than the current time, and the wait-list arm in every other
case; each arm builds its own statements in `_segments`. -/
theorem assemble_branch (env : Env) (job : Job) (lifo : Bool) (m : List (String × String))
    (h : job.Serialize env.FormatFloat = Except.ok m) :
    ∃ a, DoAddJob.assemble env job lifo = Except.ok a ∧
      a.eta = wrapInt64 (job.Timestamp + job.Delay) ∧
      (-(2 ^ 63) ≤ job.Timestamp + job.Delay → job.Timestamp + job.Delay < 2 ^ 63 →
        a.eta = job.Timestamp + job.Delay) ∧
      ((∃ index, a.branch = Branch.delayed index) ↔ (job.Delay > 0 ∧ a.eta > env.now)) ∧
      ((∃ push, a.branch = Branch.wait push) ↔ ¬ (job.Delay > 0 ∧ a.eta > env.now)) ∧
      (a._segments = [scoreStatement a.eta,
          "redis.call(\"ZADD\", KEYS[3], score, jobId)",
          "redis.call(\"PUBLISH\", KEYS[3], (score / 0x1000))"] ↔
        (job.Delay > 0 ∧ a.eta > env.now)) ∧
      (a._segments = ["redis.call(\"LPUSH\", KEYS[2], jobId)",
          "redis.call(\"PUBLISH\", KEYS[1], jobId)"] ↔
        ¬ (job.Delay > 0 ∧ a.eta > env.now)) := by
  unfold DoAddJob.assemble
  simp only [h]
  refine ⟨_, rfl, rfl, ?_, ?_, ?_, ?_, ?_⟩
  · intro hlo hhi
    exact wrapInt64_of_inRange _ hlo hhi
  · by_cases hc : job.Delay > 0 ∧ wrapInt64 (job.Timestamp + job.Delay) > env.now
    · simp [hc]
    · simp [hc]
  · by_cases hc : job.Delay > 0 ∧ wrapInt64 (job.Timestamp + job.Delay) > env.now
    · simp [hc]
    · simp [hc]
  · by_cases hc : job.Delay > 0 ∧ wrapInt64 (job.Timestamp + job.Delay) > env.now
    · simp [hc]
    · simp [hc]
  · by_cases hc : job.Delay > 0 ∧ wrapInt64 (job.Timestamp + job.Delay) > env.now
    · simp [hc]
    · simp [hc]

/-- The arm taken for the sample job delayed by 60 seconds. -/
theorem assemble_branch_witness :
    (∃ m, delayedJob.Serialize (sampleEnv 1700000000).FormatFloat = Except.ok m) ∧
    ∃ a, DoAddJob.assemble (sampleEnv 1700000000) delayedJob false = Except.ok a ∧
      a.eta = wrapInt64 (delayedJob.Timestamp + delayedJob.Delay) ∧
      (-(2 ^ 63) ≤ delayedJob.Timestamp + delayedJob.Delay →
        delayedJob.Timestamp + delayedJob.Delay < 2 ^ 63 →
        a.eta = delayedJob.Timestamp + delayedJob.Delay) ∧
      ((∃ index, a.branch = Branch.delayed index) ↔
        (delayedJob.Delay > 0 ∧ a.eta > (sampleEnv 1700000000).now)) ∧
      ((∃ push, a.branch = Branch.wait push) ↔
        ¬ (delayedJob.Delay > 0 ∧ a.eta > (sampleEnv 1700000000).now)) ∧
      (a._segments = [scoreStatement a.eta,
          "redis.call(\"ZADD\", KEYS[3], score, jobId)",
          "redis.call(\"PUBLISH\", KEYS[3], (score / 0x1000))"] ↔
        (delayedJob.Delay > 0 ∧ a.eta > (sampleEnv 1700000000).now)) ∧
      (a._segments = ["redis.call(\"LPUSH\", KEYS[2], jobId)",
          "redis.call(\"PUBLISH\", KEYS[1], jobId)"] ↔
        ¬ (delayedJob.Delay > 0 ∧ a.eta > (sampleEnv 1700000000).now)) :=
  ⟨⟨_, rfl⟩, assemble_branch (sampleEnv 1700000000) delayedJob false _ rfl⟩

/-- C17 (what the code does): the sample job delayed by 60 seconds meets the
condition (`Delay > 0`, eta 1700000060 after the clock) and takes the delayed
arm, whose three statements are built and left out of the script; `DoAddJob`
has the store run the very script it runs for the job without delay, which holds
no `ZADD` and no push: the job is routed neither to the delayed set nor to the
wait list. -/
theorem doAddJob_routes_nowhere :
    (delayedJob.Delay > 0 ∧ delayedJob.Timestamp + delayedJob.Delay > 1700000000) ∧
    (∃ a, DoAddJob.assemble (echoEnv 1700000000) delayedJob false = Except.ok a ∧
      a.branch = Branch.delayed 38 ∧
      a._segments = [
        "local score = tonumber(ARGV[1700000060]) * 0x1000 + bit.band(jobId, 0xfff)",
        "redis.call(\"ZADD\", KEYS[3], score, jobId)",
        "redis.call(\"PUBLISH\", KEYS[3], (score / 0x1000))"] ∧
      (∀ s ∈ a._segments, s ∉ a.segments) ∧
      a.segments = [incrStatement, sampleHmset, incrStatement, sampleHmset, "return jobId"] ∧
      a.script = ⟨4, sampleScript⟩) ∧
    DoAddJob (echoEnv 1700000000) delayedJob false = Except.ok sampleScript ∧
    DoAddJob (echoEnv 1700000000) sampleJob false = Except.ok sampleScript :=
  ⟨by decide, ⟨_, rfl, rfl, rfl, by decide, rfl, rfl⟩, rfl, rfl⟩

/-- C18 (as stated, refuted): at the timestamp `2^41` the score of job 3 has
remainder 4 modulo 4096, not 3; and the timestamps `2^53 < 2^53 + 1` give job 0
the same score. -/
theorem scoreValue_decode_fails :
    (scoreValue (2 ^ 41) 3 % 4096 = 4 ∧ 3 % 4096 = 3) ∧
    (2 ^ 53 < 2 ^ 53 + 1 ∧ ¬ (scoreValue (2 ^ 53) 0 < scoreValue (2 ^ 53 + 1) 0)) := by
  decide

/-- C18 (amended): for timestamps below `2^41` and job ids below `2^51` the
score decodes: its quotient by 4096 is the timestamp and its remainder is the
job id modulo 4096; hence a smaller timestamp gives a smaller score, whatever
the two job ids. -/
theorem scoreValue_decode (t1 t2 id1 id2 : Nat) (ht : t1 < t2) (ht2 : t2 < 2 ^ 41)
    (hid1 : id1 < 2 ^ 51) (hid2 : id2 < 2 ^ 51) :
    scoreValue t1 id1 / 4096 = t1 ∧
    scoreValue t1 id1 % 4096 = id1 % 4096 ∧
    scoreValue t1 id1 < scoreValue t2 id2 := by
  rw [scoreValue_exact t1 id1 (by omega) hid1, scoreValue_exact t2 id2 ht2 hid2]
  have h1 := Nat.mod_lt id1 (show 4096 > 0 by decide)
  have h2 := Nat.mod_lt id2 (show 4096 > 0 by decide)
  refine ⟨?_, ?_, ?_⟩ <;> omega

/-- Witness for `scoreValue_decode`: jobs 4097 and 5 one second apart. -/
theorem scoreValue_decode_witness :
    1700000060 < 1700000061 ∧ 1700000061 < 2 ^ 41 ∧ 4097 < 2 ^ 51 ∧ 5 < 2 ^ 51 ∧
    (scoreValue 1700000060 4097 / 4096 = 1700000060 ∧
    scoreValue 1700000060 4097 % 4096 = 4097 % 4096 ∧
    scoreValue 1700000060 4097 < scoreValue 1700000061 5) :=
  ⟨by decide, by decide, by decide, by decide,
    scoreValue_decode 1700000060 1700000061 4097 5 (by decide) (by decide) (by decide)
      (by decide)⟩

/-! ### JobFromData -/

/-- A decimal digit character is a digit and denotes its number. -/
theorem digitChar_decimal (k : Nat) (h : k < 10) :
    isDecimalDigit (Nat.digitChar k) = true ∧ (Nat.digitChar k).toNat - 48 = k := by
  interval_cases k <;> decide

/-- The digit loop only ever produces decimal digits. -/
theorem toDigitsCore_all_decimal :
    ∀ (fuel n : Nat) (ds : List Char), ds.all isDecimalDigit = true →
      (Nat.toDigitsCore 10 fuel n ds).all isDecimalDigit = true := by
  intro fuel
  induction fuel with
  | zero => intro n ds hds; simpa [Nat.toDigitsCore] using hds
  | succ fuel ih =>
    intro n ds hds
    have hd : (Nat.digitChar (n % 10) :: ds).all isDecimalDigit = true := by
      rw [List.all_cons, (digitChar_decimal _ (Nat.mod_lt _ (by decide))).1, hds]
      rfl
    simp only [Nat.toDigitsCore]
    split
    · exact hd
    · exact ih _ _ hd

/-- With enough fuel, the digits the loop puts in front of `ds` denote `n`. -/
theorem toDigitsCore_value :
    ∀ (fuel n : Nat) (ds : List Char), n < fuel →
      List.foldl (fun n c => n * 10 + (c.toNat - 48)) 0 (Nat.toDigitsCore 10 fuel n ds) =
      List.foldl (fun n c => n * 10 + (c.toNat - 48)) n ds := by
  intro fuel
  induction fuel with
  | zero => intro n ds h; omega
  | succ fuel ih =>
    intro n ds h
    have hk := (digitChar_decimal (n % 10) (Nat.mod_lt _ (by decide))).2
    simp only [Nat.toDigitsCore]
    split
    · rename_i h0
      have hn : n % 10 = n := by omega
      rw [List.foldl_cons, Nat.zero_mul, Nat.zero_add, hk, hn]
    · rename_i h0
      rw [ih (n / 10) _ (by omega)]
      simp only [List.foldl_cons, hk]
      have hn : n / 10 * 10 + n % 10 = n := by omega
      rw [hn]

/-- The digit loop never returns the empty list when it has fuel. -/
theorem toDigitsCore_ne_nil (fuel n : Nat) (ds : List Char) :
    Nat.toDigitsCore 10 (fuel + 1) n ds ≠ [] := by
  have hlen : ∀ (fuel n : Nat) (ds : List Char),
      ds.length ≤ (Nat.toDigitsCore 10 fuel n ds).length := by
    intro fuel
    induction fuel with
    | zero => intro n ds; simp [Nat.toDigitsCore]
    | succ fuel ih =>
      intro n ds
      simp only [Nat.toDigitsCore]
      split
      · simp
      · exact Nat.le_trans (by simp) (ih _ _)
  intro h
  have h1 := hlen fuel (n / 10) (Nat.digitChar (n % 10) :: ds)
  simp only [Nat.toDigitsCore] at h
  split at h
  · cases h
  · rw [h] at h1
    simp at h1

/-- The decimal digits of a natural number: not empty, all digits, denoting it. -/
theorem toDigits_decimal (n : Nat) :
    Nat.toDigits 10 n ≠ [] ∧ (Nat.toDigits 10 n).all isDecimalDigit = true ∧
    digitsValue (Nat.toDigits 10 n) = n := by
  refine ⟨toDigitsCore_ne_nil _ _ _, toDigitsCore_all_decimal _ _ _ rfl, ?_⟩
  unfold digitsValue Nat.toDigits
  rw [toDigitsCore_value _ _ _ (Nat.lt_succ_self n)]
  rfl

/-- Reading further digits never lowers the value read so far. -/
theorem foldl_digits_ge :
    ∀ (ds : List Char) (n : Nat),
      n ≤ List.foldl (fun n c => n * 10 + (c.toNat - 48)) n ds := by
  intro ds
  induction ds with
  | nil => intro n; exact Nat.le_refl n
  | cons c cs ih =>
    intro n
    rw [List.foldl_cons]
    exact Nat.le_trans (by omega) (ih _)

/-- On digits whose value fits 64 bits the digit loop returns that value. -/
theorem parseUintLoop_digits :
    ∀ (ds : List Char) (n : Nat), ds.all isDecimalDigit = true →
      List.foldl (fun n c => n * 10 + (c.toNat - 48)) n ds ≤ 2 ^ 64 - 1 →
      parseUintLoop ds n = (List.foldl (fun n c => n * 10 + (c.toNat - 48)) n ds, none) := by
  intro ds
  induction ds with
  | nil => intro n _ _; rfl
  | cons c cs ih =>
    intro n hall hle
    rw [List.all_cons, Bool.and_eq_true] at hall
    rw [List.foldl_cons] at hle
    have hstep : ¬ (n * 10 + (c.toNat - 48) > 2 ^ 64 - 1) := by
      have := foldl_digits_ge cs (n * 10 + (c.toNat - 48))
      omega
    have hc : ¬ (isDecimalDigit c = false) := by simp [hall.1]
    rw [parseUintLoop, if_neg hc, if_neg hstep, ih _ hall.2 hle, List.foldl_cons]

/-- `Atoi` reads back the decimal rendering of every integer of the `int` range. -/
theorem atoi_toString (d : Int) (hlo : -(2 ^ 63) ≤ d) (hhi : d < 2 ^ 63) :
    Atoi (toString d) = (d, none) := by
  obtain ⟨hne, hall, hval⟩ := toDigits_decimal d.natAbs
  have hparse : parseUintLoop (Nat.toDigits 10 d.natAbs) 0 = (d.natAbs, none) := by
    have hv : List.foldl (fun n c => n * 10 + (c.toNat - 48)) 0 (Nat.toDigits 10 d.natAbs) =
        d.natAbs := hval
    rw [parseUintLoop_digits _ 0 hall (by rw [hv]; omega), hv]
  have hdigits : ∀ neg, atoiDigits neg (Nat.toDigits 10 d.natAbs) =
      if neg = true then
        (if d.natAbs > 2 ^ 63 then (-(2 ^ 63), some ErrRange) else (-(d.natAbs : Int), none))
      else
        (if d.natAbs ≥ 2 ^ 63 then (2 ^ 63 - 1, some ErrRange) else ((d.natAbs : Int), none)) := by
    intro neg
    unfold atoiDigits
    rw [if_neg hne, hparse]
    simp
  rw [← formatInt_ten]
  unfold FormatInt
  split
  · rename_i hneg
    have hdata : ("-" ++ String.mk (Nat.toDigits 10 d.natAbs)).data =
        '-' :: Nat.toDigits 10 d.natAbs := by
      simp [String.data_append]
    unfold Atoi
    rw [hdata]
    simp only [if_true, hdigits]
    have h1 : ¬ (d.natAbs > 2 ^ 63) := by omega
    rw [if_neg h1]
    congr 1
    omega
  · rename_i hneg
    have hdata : (String.mk (Nat.toDigits 10 d.natAbs)).data = Nat.toDigits 10 d.natAbs := rfl
    unfold Atoi
    rw [hdata]
    cases hds : Nat.toDigits 10 d.natAbs with
    | nil => exact absurd hds hne
    | cons c cs =>
      have hallc := hall
      rw [hds] at hallc
      have hc : isDecimalDigit c = true := by
        rw [List.all_cons] at hallc
        exact (Bool.and_eq_true _ _ ▸ hallc).1
      have hminus : c ≠ '-' := by
        intro h
        rw [h] at hc
        exact absurd hc (by decide)
      have hplus : c ≠ '+' := by
        intro h
        rw [h] at hc
        exact absurd hc (by decide)
      have h1 : ¬ (d.natAbs ≥ 2 ^ 63) := by omega
      have h2 : ((d.natAbs : Nat) : Int) = d := by omega
      simp only [hminus, hplus, if_false]
      rw [← hds, hdigits false]
      simp only [Bool.false_eq_true, if_false]
      rw [if_neg h1, h2]

/-- No decimal rendering of an integer is the sentinel `undefined`. -/
theorem toString_ne_undefined (d : Int) : toString d ≠ "undefined" := by
  obtain ⟨hne, hall, _⟩ := toDigits_decimal d.natAbs
  rw [← formatInt_ten]
  unfold FormatInt
  intro h
  have hd := congrArg String.data h
  split at hd
  · simp [String.data_append] at hd
  · have hdata : (String.mk (Nat.toDigits 10 d.natAbs)).data = Nat.toDigits 10 d.natAbs := rfl
    rw [hdata] at hd
    rw [hd] at hall
    exact absurd hall (by decide)

/-- C11 (what the code does): on the mapping `Serialize` returns for the sample
job, whatever the decoders are, `JobFromData` either leaves at an error return
or reaches the end of its body with the locals computed (delay 0, timestamp
1700000000); it has no statement that builds or returns a `Job`. -/
theorem jobFromData_builds_no_job {V : Type} (lib : Lib V) (bull : Bullion) (id : String) :
    sampleJob.Serialize (fun _ => "0") = Except.ok sampleFields ∧
    ((∃ err, bull.JobFromData lib id sampleFields = FromData.failed err) ∨
     (∃ jobData opts progress, bull.JobFromData lib id sampleFields =
        FromData.fellThrough jobData opts 0 1700000000 progress)) := by
  refine ⟨rfl, ?_⟩
  unfold Bullion.JobFromData
  cases h1 : lib.Unmarshal (mapGet sampleFields "data") with
  | error err => exact Or.inl ⟨err, rfl⟩
  | ok jobData =>
    cases h2 : lib.Unmarshal (mapGet sampleFields "opts") with
    | error err => exact Or.inl ⟨err, rfl⟩
    | ok opts =>
      refine Or.inr ⟨jobData, opts, (lib.ParseFloat (mapGet sampleFields "progress")).1, ?_⟩
      have hd : mapGet sampleFields "delay" = "0" := rfl
      have ht : mapGet sampleFields "timestamp" = "1700000000" := rfl
      have hu : ¬ (("0" : String) = "undefined") := by decide
      have a0 : (Atoi "0").1 = 0 := by decide
      have a1 : (Atoi "1700000000").1 = 1700000000 := by decide
      simp only [hd, ht, hu, if_false, a0, a1]

/-- C12 (as stated, refuted): in a mapping whose `data` and `opts` are valid
JSON and whose `delay` and `timestamp` are not numbers (`Atoi` reports a syntax
error for both), `JobFromData` does not fail: it goes on with 0 for both. -/
theorem jobFromData_ignores_bad_numbers :
    mapGet garbledNumbers "delay" ≠ "undefined" ∧
    Atoi (mapGet garbledNumbers "delay") = (0, some ErrSyntax) ∧
    Atoi (mapGet garbledNumbers "timestamp") = (0, some ErrSyntax) ∧
    (∀ err, mailQueue.JobFromData sampleLib "1" garbledNumbers ≠ FromData.failed err) ∧
    (∃ progress, mailQueue.JobFromData sampleLib "1" garbledNumbers =
      FromData.fellThrough GoValue.nil GoValue.nil 0 0 progress) := by
  refine ⟨by decide, by decide, by decide, ?_, ⟨_, rfl⟩⟩
  intro err h
  have h2 : mailQueue.JobFromData sampleLib "1" garbledNumbers =
      FromData.fellThrough GoValue.nil GoValue.nil 0 0
        (sampleLib.ParseFloat (mapGet garbledNumbers "progress")).1 := rfl
  rw [h2] at h
  cases h

/-- C12 (amended): `JobFromData` fails with error `e` exactly when decoding
`data` fails with `e`, or `data` decodes and decoding `opts` fails with `e`; the
fields `delay`, `timestamp` and `progress` have no part in it. -/
theorem jobFromData_fails_iff {V : Type} (lib : Lib V) (bull : Bullion) (id : String)
    (data : List (String × String)) (e : Error) :
    bull.JobFromData lib id data = FromData.failed e ↔
      (lib.Unmarshal (mapGet data "data") = Except.error e ∨
       (∃ v, lib.Unmarshal (mapGet data "data") = Except.ok v ∧
          lib.Unmarshal (mapGet data "opts") = Except.error e)) := by
  unfold Bullion.JobFromData
  cases h1 : lib.Unmarshal (mapGet data "data") with
  | error err =>
    constructor
    · intro h
      injection h with h
      exact Or.inl (by rw [h])
    · intro h
      rcases h with h | ⟨v, hv, _⟩
      · injection h with h
        rw [h]
      · cases hv
  | ok jobData =>
    cases h2 : lib.Unmarshal (mapGet data "opts") with
    | error err =>
      constructor
      · intro h
        injection h with h
        exact Or.inr ⟨jobData, rfl, by rw [h]⟩
      · intro h
        rcases h with h | ⟨v, _, hv⟩
        · cases h
        · injection hv with hv
          rw [hv]
    | ok opts =>
      constructor
      · intro h
        cases h
      · intro h
        rcases h with h | ⟨v, _, hv⟩
        · cases h
        · cases hv

/-- C19 (as stated, refuted): the `delay` field `9223372036854775808` is the
decimal rendering of an integer, and `JobFromData` takes the delay to be
9223372036854775807. -/
theorem jobFromData_delay_clamps :
    mapGet (delayFields "9223372036854775808") "delay" =
      toString (9223372036854775808 : Int) ∧
    (∃ progress, mailQueue.JobFromData sampleLib "1" (delayFields "9223372036854775808") =
      FromData.fellThrough GoValue.nil GoValue.nil 9223372036854775807 1700000000 progress) ∧
    (9223372036854775807 : Int) ≠ 9223372036854775808 :=
  ⟨by decide, ⟨_, rfl⟩, by decide⟩

/-- C19 (amended): when `data` and `opts` decode, `JobFromData` takes the delay
to be 0 if the `delay` field is the literal `undefined`, and to be `d` if the
field is the decimal rendering of an integer `d` of the 64-bit `int` range. -/
theorem jobFromData_delay {V : Type} (lib : Lib V) (bull : Bullion) (id : String)
    (data : List (String × String)) (jobData opts : V)
    (hdata : lib.Unmarshal (mapGet data "data") = Except.ok jobData)
    (hopts : lib.Unmarshal (mapGet data "opts") = Except.ok opts) :
    (mapGet data "delay" = "undefined" →
      ∃ timestamp progress, bull.JobFromData lib id data =
        FromData.fellThrough jobData opts 0 timestamp progress) ∧
    (∀ d : Int, -(2 ^ 63) ≤ d → d < 2 ^ 63 → mapGet data "delay" = toString d →
      ∃ timestamp progress, bull.JobFromData lib id data =
        FromData.fellThrough jobData opts d timestamp progress) := by
  unfold Bullion.JobFromData
  simp only [hdata, hopts]
  constructor
  · intro h
    refine ⟨(Atoi (mapGet data "timestamp")).1, (lib.ParseFloat (mapGet data "progress")).1, ?_⟩
    simp only [h, if_true]
  · intro d hlo hhi h
    refine ⟨(Atoi (mapGet data "timestamp")).1, (lib.ParseFloat (mapGet data "progress")).1, ?_⟩
    rw [h, if_neg (toString_ne_undefined d), atoi_toString d hlo hhi]

/-- Witness for `jobFromData_delay`: mappings with the `delay` fields
`undefined` and `60`. -/
theorem jobFromData_delay_witness :
    (sampleLib.Unmarshal (mapGet (delayFields "undefined") "data") = Except.ok GoValue.nil ∧
      sampleLib.Unmarshal (mapGet (delayFields "undefined") "opts") = Except.ok GoValue.nil ∧
      mapGet (delayFields "undefined") "delay" = "undefined" ∧
      ∃ timestamp progress, mailQueue.JobFromData sampleLib "1" (delayFields "undefined") =
        FromData.fellThrough GoValue.nil GoValue.nil 0 timestamp progress) ∧
    (sampleLib.Unmarshal (mapGet (delayFields "60") "data") = Except.ok GoValue.nil ∧
      sampleLib.Unmarshal (mapGet (delayFields "60") "opts") = Except.ok GoValue.nil ∧
      -(2 ^ 63) ≤ (60 : Int) ∧ (60 : Int) < 2 ^ 63 ∧
      mapGet (delayFields "60") "delay" = toString (60 : Int) ∧
      ∃ timestamp progress, mailQueue.JobFromData sampleLib "1" (delayFields "60") =
        FromData.fellThrough GoValue.nil GoValue.nil 60 timestamp progress) :=
  ⟨⟨rfl, rfl, rfl,
    (jobFromData_delay sampleLib mailQueue "1" (delayFields "undefined")
      GoValue.nil GoValue.nil rfl rfl).1 rfl⟩,
   ⟨rfl, rfl, by decide, by decide, by decide,
    (jobFromData_delay sampleLib mailQueue "1" (delayFields "60")
      GoValue.nil GoValue.nil rfl rfl).2 60 (by decide) (by decide) (by decide)⟩⟩

end BullionSpec
